import Mathlib

/-!
# Verification of the act-zero actor runtime core

A shallow embedding, in Lean 4, of the core of the `act-zero` actor runtime:

* `Produces` — the deferred result cell (`src/actor.rs`), with its `Future::poll`
  implementation embedded as the pure function `Produces.poll`;
* the handle pair `Addr` / `WeakAddr` (`src/addr.rs`), with `detached`, `ptr`,
  `downgrade`, `upgrade`, `upcast`, `downcast`, the send operations and the
  identity-based equality / hash / ordering;
* the mailbox scheduler `mutex_task` (`src/addr.rs`), embedded as a labelled
  transition system `Step` over `MState`, with ghost history fields recording
  the order in which exclusive items were enqueued, started and finished.

Machine integers do not occur in the modelled code; allocations and type tags
are drawn from `Nat`.
-/

set_option autoImplicit false

namespace ActZero

/-! ## The deferred result cell `Produces<T>` (src/actor.rs)

The Rust enum has three variants: `None`, `Value(T)` and
`Deferred(oneshot::Receiver<Produces<T>>)`.  A oneshot receiver, at the moment
of a poll, is in one of three conditions: still pending, broken (sender dropped
without sending — `poll_unpin` returns `Err(Canceled)`), or carrying a sent
inner `Produces<T>`.  We flatten the receiver condition into the `deferred`
constructor, which yields an inductive type on which `poll` is structurally
recursive. -/

inductive Produces (α : Type) : Type where
  /-- The `Produces::None`: no value will be produced. -/
  | none : Produces α
  /-- The `Produces::Value(v)`: a value is ready. -/
  | value (v : α) : Produces α
  /-- The `Produces::Deferred(recv)` where the oneshot receiver is still pending. -/
  | deferredPending : Produces α
  /-- The `Produces::Deferred(recv)` where the sender was dropped without sending,
  so polling the receiver yields `Err(Canceled)`. -/
  | deferredClosed : Produces α
  /-- The `Produces::Deferred(recv)` where the sender already sent the inner
  `Produces` value `p`, so polling the receiver yields `Ok(p)`. -/
  | deferredReady (p : Produces α) : Produces α

/-- Outcome of one call to `Future::poll` on a `Produces<T>`:
`Poll::Ready(Ok(v))`, `Poll::Ready(Err(oneshot::Canceled))`, or
`Poll::Pending`. -/
inductive PollOut (α : Type) : Type where
  | readyOk (v : α) : PollOut α
  | readyCanceled : PollOut α
  | pending : PollOut α

/-- The body of `impl Future for Produces<T>` (src/actor.rs lines 45-63).
Each loop iteration performs `mem::replace(&mut *self, Produces::None)` and
matches: `None` resolves to `Err(Canceled)`; `Value(v)` resolves to `Ok(v)`;
`Deferred(recv)` polls the receiver — on `Ok(producer)` the cell becomes
`producer` and the loop `continue`s (collapsing the chain inside the same poll
call), on `Err` it resolves to `Err(Canceled)`, and on `Pending` the receiver
is put back and the poll returns `Pending`.  The function returns the poll
outcome together with the cell's residual state after the call. -/
def Produces.poll {α : Type} : Produces α → PollOut α × Produces α
  | .none => (.readyCanceled, .none)
  | .value v => (.readyOk v, .none)
  | .deferredPending => (.pending, .deferredPending)
  | .deferredClosed => (.readyCanceled, .none)
  | .deferredReady p => p.poll

/-- The `chain n p` nests `p` under `n` layers of already-resolved deferred
indirection: a deferred-of-deferred chain of depth `n`. -/
def Produces.chain {α : Type} : Nat → Produces α → Produces α
  | 0, p => p
  | n + 1, p => .deferredReady (Produces.chain n p)

/-! ## The handle pair `Addr` / `WeakAddr` (src/addr.rs)

A handle stores `inner: Option<Arc<dyn Any + Send + Sync>>` (weak handles store
`Option<Weak<...>>`) plus two statically-borrowed dispatch entries `send_mut`
and `send_fut`.  We model the erased `Arc` allocation by a `Nat` identifier;
the surrounding heap is a `World` giving, for each allocation, whether any
strong reference still keeps it alive (`Weak::upgrade` succeeds exactly then)
and the concrete Rust type `AddrInner<T>` stored in it (a `Nat` type tag, used
by `downcast`'s `inner.is::<AddrInner<U>>()` check). -/

/-- Identifier of an `Arc` allocation holding an `AddrInner<T>`. -/
abbrev AllocId := Nat

/-- Type tag standing for the Rust type parameter `T` of an `AddrInner<T>`. -/
abbrev Tag := Nat

/-- The ambient heap: liveness (some strong `Arc` still exists) and concrete
type of each erased allocation. -/
structure World : Type where
  live : AllocId → Bool
  typeOf : AllocId → Tag

/-- The `send_mut` dispatch entry carried by a handle.  `direct t` is
`&AddrInner::<T>::send_mut`; `upcasted t u` is
`&AddrInner::<T>::send_mut_upcasted::<U, F>` installed by `upcast`;
`unreach` is `&send_unreachable`, installed only on detached handles. -/
inductive MutDispatch : Type where
  | direct (t : Tag) : MutDispatch
  | upcasted (t : Tag) (u : Tag) : MutDispatch
  | unreach : MutDispatch
deriving DecidableEq

/-- The `send_fut` dispatch entry carried by a handle: `&AddrInner::<T>::send_fut`
or `&send_unreachable`. -/
inductive FutDispatch : Type where
  | direct (t : Tag) : FutDispatch
  | unreach : FutDispatch
deriving DecidableEq

/-- Observable outcome of a send operation on a handle: the item was handed to
the dispatch entry for allocation `i`; or the operation silently did nothing;
or `send_unreachable` was invoked and the process panicked via
`unreachable!()`. -/
inductive SendResult : Type where
  | enqueued (i : AllocId) : SendResult
  | noop : SendResult
  | panicked : SendResult
deriving DecidableEq

/-- Invoking a `send_mut` dispatch entry on a (live) allocation.  The real
entries forward to `mut_channel.unbounded_send(..).ok()`, never panicking;
`send_unreachable` executes `unreachable!()`. -/
def MutDispatch.invoke : MutDispatch → AllocId → SendResult
  | .direct _, i => .enqueued i
  | .upcasted _ _, i => .enqueued i
  | .unreach, _ => .panicked

/-- Invoking a `send_fut` dispatch entry on a (live) allocation. -/
def FutDispatch.invoke : FutDispatch → AllocId → SendResult
  | .direct _, i => .enqueued i
  | .unreach, _ => .panicked

/-- The `Addr<T>`: `inner: Option<Arc<dyn Any + Send + Sync>>` plus the two
dispatch entries (src/addr.rs lines 192-196). -/
structure Addr : Type where
  inner : Option AllocId
  sendMutD : MutDispatch
  sendFutD : FutDispatch
deriving DecidableEq

/-- The `WeakAddr<T>`: `inner: Option<Weak<dyn Any + Send + Sync>>` plus the two
dispatch entries (src/addr.rs lines 364-368). -/
structure WeakAddr : Type where
  inner : Option AllocId
  sendMutD : MutDispatch
  sendFutD : FutDispatch
deriving DecidableEq

/-- The `Addr::detached`: `inner: None`, both dispatch entries `send_unreachable`
(src/addr.rs lines 312-318). -/
def Addr.detached : Addr :=
  { inner := Option.none, sendMutD := .unreach, sendFutD := .unreach }

/-- The `WeakAddr::detached` (src/addr.rs lines 451-457). -/
def WeakAddr.detached : WeakAddr :=
  { inner := Option.none, sendMutD := .unreach, sendFutD := .unreach }

/-- The handle produced by `Addr::new` for a fresh allocation `i` holding an
`AddrInner<T>` with type tag `t` (src/addr.rs lines 284-291). -/
def Addr.mkNew (i : AllocId) (t : Tag) : Addr :=
  { inner := some i, sendMutD := .direct t, sendFutD := .direct t }

/-- The `upgrade_weak` (src/addr.rs lines 428-430): `Weak::upgrade` on the stored
weak reference, succeeding exactly when the allocation is still alive. -/
def upgradeWeak (w : World) : Option AllocId → Option AllocId
  | Option.none => Option.none
  | some i => if w.live i then some i else Option.none

/-- The `Addr::ptr` (src/addr.rs lines 319-325): `Arc::as_ptr` of the inner value,
or the null sentinel (`Option.none` here) when detached. -/
def Addr.ptr (a : Addr) : Option AllocId := a.inner

/-- The `WeakAddr::ptr` (src/addr.rs lines 460-466): upgrade the weak reference,
take `Arc::as_ptr` on success, null otherwise. -/
def WeakAddr.ptr (w : World) (a : WeakAddr) : Option AllocId :=
  upgradeWeak w a.inner

/-- Numeric value of a `*const ()` in our model: null is `0`, allocation `i`
sits at nonzero address `i + 1`.  `Hash`, `PartialOrd` and `Ord` on handles
act on this value. -/
def ptrVal : Option AllocId → Nat
  | Option.none => 0
  | some i => i + 1

/-- The `PartialEq<Addr<U>> for Addr<T>` (src/addr.rs lines 225-229):
`self.ptr() == rhs.ptr()`. -/
def Addr.eqAddr (a b : Addr) : Bool := a.ptr == b.ptr

/-- The `PartialEq<WeakAddr<U>> for Addr<T>` (src/addr.rs lines 231-235). -/
def Addr.eqWeak (w : World) (a : Addr) (b : WeakAddr) : Bool :=
  a.ptr == WeakAddr.ptr w b

/-- The `PartialEq<WeakAddr<U>> for WeakAddr<T>` (src/addr.rs lines 398-402). -/
def WeakAddr.eqWeak (w : World) (a b : WeakAddr) : Bool :=
  WeakAddr.ptr w a == WeakAddr.ptr w b

/-- The `Hash for Addr<T>` (src/addr.rs lines 238-242): hashes `self.ptr()`. -/
def Addr.hashVal (a : Addr) : Nat := ptrVal a.ptr

/-- The `Hash for WeakAddr<T>` (src/addr.rs lines 405-409). -/
def WeakAddr.hashVal (w : World) (a : WeakAddr) : Nat := ptrVal (WeakAddr.ptr w a)

/-- The `Ord for WeakAddr<T>` (src/addr.rs lines 422-426): compares pointers. -/
def WeakAddr.cmp (w : World) (a b : WeakAddr) : Ordering :=
  compare (ptrVal (WeakAddr.ptr w a)) (ptrVal (WeakAddr.ptr w b))

/-- The `AddrLike::send_mut for Addr` (src/addr.rs lines 264-269): invoke the
dispatch entry only when `inner` is present. -/
def Addr.send_mut (a : Addr) : SendResult :=
  match a.inner with
  | Option.none => .noop
  | some i => a.sendMutD.invoke i

/-- The `AddrLike::send_fut for Addr` (src/addr.rs lines 271-275). -/
def Addr.send_fut (a : Addr) : SendResult :=
  match a.inner with
  | Option.none => .noop
  | some i => a.sendFutD.invoke i

/-- The `AddrLike::send_mut for WeakAddr` (src/addr.rs lines 435-440): upgrade the
weak reference first; silently do nothing if the actor is gone. -/
def WeakAddr.send_mut (w : World) (a : WeakAddr) : SendResult :=
  match upgradeWeak w a.inner with
  | Option.none => .noop
  | some i => a.sendMutD.invoke i

/-- The `AddrLike::send_fut for WeakAddr` (src/addr.rs lines 442-446). -/
def WeakAddr.send_fut (w : World) (a : WeakAddr) : SendResult :=
  match upgradeWeak w a.inner with
  | Option.none => .noop
  | some i => a.sendFutD.invoke i

/-- The default `AddrLike::call_fut` (src/addr.rs lines 120-134): create a
oneshot channel, `send_fut` a wrapper future that owns the sender, and return
`Produces::Deferred(rx)`.  When `send_fut` silently drops the wrapper (detached
or dead handle), the sender is dropped unsent and the receiver is broken; when
the wrapper was enqueued, the receiver is still pending at return time. -/
def Addr.call_fut (α : Type) (a : Addr) : Produces α :=
  match a.send_fut with
  | .noop => .deferredClosed
  | _ => .deferredPending

/-- The `call_fut` through a `WeakAddr` (same default method, dispatching through
`WeakAddr::send_fut`). -/
def WeakAddr.call_fut (α : Type) (w : World) (a : WeakAddr) : Produces α :=
  match a.send_fut w with
  | .noop => .deferredClosed
  | _ => .deferredPending

/-- The `Addr::downgrade` (src/addr.rs lines 329-335): map the strong reference to
a weak one, keep both dispatch entries. -/
def Addr.downgrade (a : Addr) : WeakAddr :=
  { inner := a.inner, sendMutD := a.sendMutD, sendFutD := a.sendFutD }

/-- The `WeakAddr::upgrade` (src/addr.rs lines 484-494): upgrade the weak
reference, keeping the dispatch entries; yield `Addr::detached()` if the actor
is gone. -/
def WeakAddr.upgrade (w : World) (a : WeakAddr) : Addr :=
  match upgradeWeak w a.inner with
  | some i => { inner := some i, sendMutD := a.sendMutD, sendFutD := a.sendFutD }
  | Option.none => Addr.detached

/-- The `Addr::upcast` (src/addr.rs lines 299-308) on a handle whose static type
has tag `t`: keep `inner` and `send_fut`, replace `send_mut` by
`AddrInner::<T>::send_mut_upcasted::<U, F>` where `u` tags the target view. -/
def Addr.upcast (t u : Tag) (a : Addr) : Addr :=
  { inner := a.inner, sendMutD := .upcasted t u, sendFutD := a.sendFutD }

/-- The `Addr::downcast::<U>` (src/addr.rs lines 340-354): when attached, test
`inner.is::<AddrInner<U>>()`; on success rebuild the handle with
`AddrInner::<U>::send_mut` and the same `inner` and `send_fut`, on failure
return the original handle unchanged.  A detached handle always succeeds into
a fresh detached handle. -/
def Addr.downcast (w : World) (u : Tag) (a : Addr) : Except Addr Addr :=
  match a.inner with
  | some i =>
    if w.typeOf i = u then
      .ok { inner := a.inner, sendMutD := .direct u, sendFutD := a.sendFutD }
    else
      .error a
  | Option.none => .ok Addr.detached

/-! ## The mailbox scheduler `mutex_task` (src/addr.rs lines 20-60)

`mutex_task` owns the actor state `value`, an unbounded receiver of exclusive
items (`mut_channel`), an unbounded receiver of background futures
(`fut_channel`) and a `FuturesUnordered` set `futs` of in-flight background
futures.  We embed it as a labelled transition system:

* an exclusive item is a state transformer `f`, a number `dur` of polls on
  which its future is still pending, and the boolean `term` its future finally
  resolves to (`true` means "terminate the actor");
* a background future is the number of external progress events still needed
  before it can complete (they return `()`);
* environment steps model senders enqueueing into either channel, the channels
  closing (all corresponding senders dropped), and the asynchronous events
  that make in-flight futures or the current exclusive item ready;
* mailbox steps model the two `select_biased!` loops.  `select_biased!`'s
  bias appears as guards: in the acquire loop a completed in-flight future is
  consumed before the exclusive channel is read, and the background channel is
  read only when the exclusive branch is not ready; in the execute loop the
  current item has priority over everything else and the exclusive channel is
  not read at all.

Ghost fields `enqueued`, `startedL` and `finishedL` record the order in which
exclusive items entered the channel, began executing, and finished (the item's
mutation `f` is applied to `value` at the finishing step).  `dropEvents`
counts executions of `return`, i.e. how many times the locals of `mutex_task`
— the actor state, the channel receivers and the in-flight set — are
dropped. -/

/-- An exclusive item (`MutItem<T>` in src/addr.rs line 17): a closure
`FnOnce(&mut T) -> BoxFuture<bool>`. -/
structure MutItem (σ : Type) : Type where
  f : σ → σ
  dur : Nat
  term : Bool

/-- A background future (`FutItem`, src/addr.rs line 18), abstracted to the
number of pending polls before it completes. -/
abbrev FutItem := Nat

/-- Control position of the mailbox task: in the acquire loop, or in the
execute loop with a current exclusive item whose future still needs `rem`
progress events. -/
inductive Phase (σ : Type) : Type where
  | acquiring : Phase σ
  | executing (cur : MutItem σ) (rem : Nat) : Phase σ

/-- Full mailbox configuration, including the environment-visible channel
buffers and the ghost history fields. -/
structure MState (σ : Type) : Type where
  value : σ
  mutQ : List (MutItem σ)
  mutClosed : Bool
  futQ : List FutItem
  futClosed : Bool
  futs : List FutItem
  phase : Phase σ
  done : Bool
  enqueued : List (MutItem σ)
  startedL : List (MutItem σ)
  finishedL : List (MutItem σ)
  dropEvents : Nat

/-- Configuration of a freshly spawned `mutex_task value mrx frx`: both
channels open and empty, no in-flight futures, acquire loop. -/
def initState {σ : Type} (v : σ) : MState σ :=
  { value := v, mutQ := [], mutClosed := false, futQ := [], futClosed := false
    futs := [], phase := .acquiring, done := false
    enqueued := [], startedL := [], finishedL := [], dropEvents := 0 }

/-- One transition of the mailbox system (environment or mailbox task).  Every
rule requires `done = false`: once `mutex_task` has returned, the channel
receivers and the in-flight set are dropped, so no work can arrive or run. -/
inductive Step {σ : Type} : MState σ → MState σ → Prop where
  /-- A sender enqueues an exclusive item into the open `mut_channel`. -/
  | enqueueMut (s : MState σ) (it : MutItem σ)
      (hd : s.done = false) (hc : s.mutClosed = false) :
      Step s { s with mutQ := s.mutQ ++ [it], enqueued := s.enqueued ++ [it] }
  /-- A sender enqueues a background future into the open `fut_channel`. -/
  | enqueueFut (s : MState σ) (fi : FutItem)
      (hd : s.done = false) (hc : s.futClosed = false) :
      Step s { s with futQ := s.futQ ++ [fi] }
  /-- The last `mut_channel` sender is dropped. -/
  | closeMut (s : MState σ) (hd : s.done = false) :
      Step s { s with mutClosed := true }
  /-- The last `fut_channel` sender is dropped. -/
  | closeFut (s : MState σ) (hd : s.done = false) :
      Step s { s with futClosed := true }
  /-- An awaited event makes an in-flight background future closer to ready. -/
  | progressFut (s : MState σ) (a b : List FutItem) (k : Nat)
      (hd : s.done = false) (hf : s.futs = a ++ (k + 1) :: b) :
      Step s { s with futs := a ++ k :: b }
  /-- An awaited event makes the current exclusive item's future closer to
  ready. -/
  | progressCur (s : MState σ) (cur : MutItem σ) (k : Nat)
      (hd : s.done = false) (hp : s.phase = .executing cur (k + 1)) :
      Step s { s with phase := .executing cur k }
  /-- Acquire loop, first `select_biased!` branch: a completed in-flight
  background future is removed from the `FuturesUnordered` set. -/
  | consumeFutAcq (s : MState σ) (a b : List FutItem)
      (hd : s.done = false) (hp : s.phase = .acquiring)
      (hf : s.futs = a ++ 0 :: b) :
      Step s { s with futs := a ++ b }
  /-- Acquire loop, second branch: no in-flight future is ready, and
  `mut_channel.next()` yields an item, which becomes the current item. -/
  | takeMut (s : MState σ) (it : MutItem σ) (rest : List (MutItem σ))
      (hd : s.done = false) (hp : s.phase = .acquiring)
      (hr : ¬ 0 ∈ s.futs) (hq : s.mutQ = it :: rest) :
      Step s { s with phase := .executing it it.dur, mutQ := rest
                      startedL := s.startedL ++ [it] }
  /-- Acquire loop, second branch: no in-flight future is ready, and
  `mut_channel.next()` yields `None` (channel closed and drained);
  `mutex_task` returns, dropping its locals. -/
  | returnClosed (s : MState σ)
      (hd : s.done = false) (hp : s.phase = .acquiring)
      (hr : ¬ 0 ∈ s.futs) (hc : s.mutClosed = true) (hq : s.mutQ = []) :
      Step s { s with done := true, dropEvents := s.dropEvents + 1 }
  /-- Acquire loop, third branch: neither of the first two branches is ready
  (no completed in-flight future, `mut_channel` empty and still open), and a
  newly arrived background future is pushed into the in-flight set. -/
  | pushFutAcq (s : MState σ) (fi : FutItem) (rest : List FutItem)
      (hd : s.done = false) (hp : s.phase = .acquiring)
      (hr : ¬ 0 ∈ s.futs) (hq : s.mutQ = []) (hc : s.mutClosed = false)
      (hf : s.futQ = fi :: rest) :
      Step s { s with futs := s.futs ++ [fi], futQ := rest }
  /-- Execute loop, first branch: the current item's future resolves `false`;
  its mutation is applied and the task breaks back to the acquire loop. -/
  | finishCont (s : MState σ) (cur : MutItem σ)
      (hd : s.done = false) (hp : s.phase = .executing cur 0)
      (ht : cur.term = false) :
      Step s { s with value := cur.f s.value, phase := .acquiring
                      finishedL := s.finishedL ++ [cur] }
  /-- Execute loop, first branch: the current item's future resolves `true`;
  its mutation is applied and `mutex_task` returns, dropping its locals. -/
  | finishTerm (s : MState σ) (cur : MutItem σ)
      (hd : s.done = false) (hp : s.phase = .executing cur 0)
      (ht : cur.term = true) :
      Step s { s with value := cur.f s.value, phase := .acquiring
                      finishedL := s.finishedL ++ [cur]
                      done := true, dropEvents := s.dropEvents + 1 }
  /-- Execute loop, second branch: the current item is still pending and a
  completed in-flight background future is removed. -/
  | consumeFutExec (s : MState σ) (cur : MutItem σ) (rem : Nat)
      (a b : List FutItem)
      (hd : s.done = false) (hp : s.phase = .executing cur (rem + 1))
      (hf : s.futs = a ++ 0 :: b) :
      Step s { s with futs := a ++ b }
  /-- Execute loop, third branch: the current item is still pending, no
  in-flight future is ready, and a newly arrived background future is pushed
  into the in-flight set. -/
  | pushFutExec (s : MState σ) (cur : MutItem σ) (rem : Nat)
      (fi : FutItem) (rest : List FutItem)
      (hd : s.done = false) (hp : s.phase = .executing cur (rem + 1))
      (hr : ¬ 0 ∈ s.futs) (hf : s.futQ = fi :: rest) :
      Step s { s with futs := s.futs ++ [fi], futQ := rest }

/-- Reflexive-transitive closure of `Step`. -/
inductive Reach {σ : Type} (s0 : MState σ) : MState σ → Prop where
  | refl : Reach s0 s0
  | tail {s t : MState σ} : Reach s0 s → Step s t → Reach s0 t

/-- Apply the mutations of a list of finished exclusive items, in order. -/
def runItems {σ : Type} (v : σ) (l : List (MutItem σ)) : σ :=
  l.foldl (fun x it => it.f x) v

/-- The serialization invariant of the mailbox, relative to the initial actor
state `v`:

* `enqueued = startedL ++ mutQ` — items begin executing in exactly the FIFO
  order of the exclusive channel;
* in the acquire loop every started item has finished, and in the execute loop
  the started items are exactly the finished ones plus the single current item
  — at most one exclusive item is ever in flight, and the next one is not
  started before the current one's future has resolved;
* the actor state equals the initial state with the finished items' mutations
  applied in their finishing (= enqueue) order;
* `mutex_task` has returned at most once, exactly when `done`;
* after `mutex_task` returns, the control position is the acquire loop. -/
def Inv {σ : Type} (v : σ) (s : MState σ) : Prop :=
  s.enqueued = s.startedL ++ s.mutQ
  ∧ (match s.phase with
     | .acquiring => s.startedL = s.finishedL
     | .executing cur _ => s.startedL = s.finishedL ++ [cur])
  ∧ s.value = runItems v s.finishedL
  ∧ s.dropEvents = (if s.done then 1 else 0)
  ∧ (s.done = true → s.phase = .acquiring)

/-- The configuration reached by the `return` that `mutex_task` executes when
the current exclusive item's future resolves `true` (src/addr.rs lines
50-51). -/
def termState {σ : Type} (s : MState σ) (cur : MutItem σ) : MState σ :=
  { s with value := cur.f s.value, phase := .acquiring
           finishedL := s.finishedL ++ [cur]
           done := true, dropEvents := s.dropEvents + 1 }

/-- The mailbox configuration produced by `Addr::new` just before the handle
is returned to the caller: a fresh `mutex_task` whose exclusive channel holds
exactly the `started` call enqueued by `send!(addr.started(addr.clone()))`
(src/addr.rs line 294). -/
def startedMailbox {σ : Type} (v : σ) (startedIt : MutItem σ) : MState σ :=
  { initState v with mutQ := [startedIt], enqueued := [startedIt] }

/-- Model of `futures::task::SpawnError`. -/
structure SpawnFail : Type where
deriving DecidableEq

/-- The function `Addr::new` (src/addr.rs lines 280-297), relative to the fresh
allocation `i` (the new `Arc<AddrInner<T>>`) with type tag `t`.  `spawnOk`
records whether `spawner.spawn(mutex_task(value, mrx, frx))` succeeded; on
failure the `?` operator returns the spawn error synchronously and no handle
exists.  On success the handle is built and
`send!(addr.started(addr.clone()))` enqueues the `started` call as the first
exclusive item before `Ok(addr)` is returned. -/
def Addr.new (σ : Type) (spawnOk : Bool) (v : σ) (startedIt : MutItem σ)
    (i : AllocId) (t : Tag) : Except SpawnFail (Addr × MState σ) :=
  if spawnOk then
    .ok (Addr.mkNew i t, startedMailbox v startedIt)
  else
    .error ⟨⟩


/-! ### Concrete configurations used to instantiate the theorems below -/

/-- Exclusive item incrementing a counter actor; completes immediately, does
not terminate the actor. -/
def c1It : MutItem Nat := { f := fun x => x + 1, dur := 0, term := false }

/-- Mailbox of a counter actor after `c1It` is enqueued. -/
def c1S1 : MState Nat := { initState 0 with mutQ := [c1It], enqueued := [c1It] }

/-- Mailbox after the acquire loop takes `c1It` as the current item. -/
def c1S2 : MState Nat :=
  { c1S1 with phase := .executing c1It 0, mutQ := [], startedL := [c1It] }

/-- Mailbox after the execute loop runs `c1It` to completion. -/
def c1S3 : MState Nat :=
  { c1S2 with value := 1, phase := .acquiring, finishedL := [c1It] }

/-- Exclusive item that terminates the actor ("return true"). -/
def c2It : MutItem Nat := { f := fun x => x * 2, dur := 0, term := true }

/-- Exclusive item enqueued after the terminating one; never runs. -/
def c2It2 : MutItem Nat := { f := fun x => x + 100, dur := 3, term := false }

/-- Mailbox after `c2It` is enqueued. -/
def c2S1 : MState Nat := { initState 5 with mutQ := [c2It], enqueued := [c2It] }

/-- Mailbox after `c2It2` is also enqueued, behind `c2It`. -/
def c2S2 : MState Nat :=
  { c2S1 with mutQ := [c2It, c2It2], enqueued := [c2It, c2It2] }

/-- Mailbox after the acquire loop takes `c2It`, with `c2It2` still queued. -/
def c2S3 : MState Nat :=
  { c2S2 with phase := .executing c2It 0, mutQ := [c2It2], startedL := [c2It] }

/-- Mailbox after a background future needing five more progress events is
enqueued on the background channel. -/
def c3S1 : MState Nat := { initState 7 with futQ := [5] }

/-- Mailbox after the acquire loop moves that future into the in-flight set. -/
def c3S2 : MState Nat := { c3S1 with futs := [5], futQ := [] }

/-- Mailbox after every strong handle is dropped (exclusive channel closed)
while the background future is still pending. -/
def c3S3 : MState Nat := { c3S2 with mutClosed := true }

/-- The `started` call enqueued by `Addr::new` for a concrete actor. -/
def c6It : MutItem Nat := { f := fun x => x + 3, dur := 2, term := false }

/-- World in which every allocation has lost all its strong references. -/
def deadWorld : World := { live := fun _ => false, typeOf := fun _ => 9 }

/-- World in which every allocation is still strongly referenced. -/
def liveWorld : World := { live := fun _ => true, typeOf := fun _ => 9 }

/-- Weak handle to allocation 3, used with `deadWorld`. -/
def c5Weak : WeakAddr :=
  { inner := some 3, sendMutD := .direct 9, sendFutD := .direct 9 }

/-- Weak handle to allocation 1, used with `deadWorld`. -/
def c10WeakA : WeakAddr :=
  { inner := some 1, sendMutD := .direct 9, sendFutD := .direct 9 }

/-- Weak handle to allocation 2 — a different actor than `c10WeakA`. -/
def c10WeakB : WeakAddr :=
  { inner := some 2, sendMutD := .direct 9, sendFutD := .direct 9 }

/-! ## Theorems -/

theorem Produces.poll_chain {α : Type} (n : Nat) (p : Produces α) :
    (Produces.chain n p).poll = p.poll := by
  induction n with
  | zero => rfl
  | succ n ih => simpa [Produces.chain, Produces.poll] using ih

/-- After any poll, the residual cell is either the empty variant (when the
poll resolved) or a pending receiver (when the poll returned `Pending`). -/
theorem Produces.poll_residual {α : Type} (p : Produces α) :
    ((p.poll.1 = PollOut.pending ∧ p.poll.2 = Produces.deferredPending)
      ∨ ((p.poll.1 ≠ PollOut.pending) ∧ p.poll.2 = Produces.none)) := by
  induction p with
  | none => simp [Produces.poll]
  | value v => simp [Produces.poll]
  | deferredPending => simp [Produces.poll]
  | deferredClosed => simp [Produces.poll]
  | deferredReady p ih => simpa [Produces.poll] using ih


theorem Inv.init {σ : Type} (v : σ) : Inv v (initState v) := by
  simp [Inv, initState, runItems]

theorem Inv.step {σ : Type} {v : σ} {s t : MState σ}
    (hst : Step s t) (hi : Inv v s) : Inv v t := by
  obtain ⟨h1, h2, h3, h4, h5⟩ := hi
  cases hst with
  | enqueueMut it hd hc =>
    refine ⟨?_, ?_, ?_, ?_, ?_⟩ <;> simp_all [Inv]
  | enqueueFut fi hd hc =>
    refine ⟨?_, ?_, ?_, ?_, ?_⟩ <;> simp_all [Inv]
  | closeMut hd =>
    refine ⟨?_, ?_, ?_, ?_, ?_⟩ <;> simp_all [Inv]
  | closeFut hd =>
    refine ⟨?_, ?_, ?_, ?_, ?_⟩ <;> simp_all [Inv]
  | progressFut a b k hd hf =>
    refine ⟨?_, ?_, ?_, ?_, ?_⟩ <;> simp_all [Inv]
  | progressCur cur k hd hp =>
    refine ⟨?_, ?_, ?_, ?_, ?_⟩ <;> simp_all [Inv]
  | consumeFutAcq a b hd hp hf =>
    refine ⟨?_, ?_, ?_, ?_, ?_⟩ <;> simp_all [Inv]
  | takeMut it rest hd hp hr hq =>
    refine ⟨?_, ?_, ?_, ?_, ?_⟩ <;> simp_all [Inv]
  | returnClosed hd hp hr hc hq =>
    refine ⟨?_, ?_, ?_, ?_, ?_⟩ <;> simp_all [Inv]
  | pushFutAcq fi rest hd hp hr hq hc hf =>
    refine ⟨?_, ?_, ?_, ?_, ?_⟩ <;> simp_all [Inv]
  | finishCont cur hd hp ht =>
    refine ⟨?_, ?_, ?_, ?_, ?_⟩ <;> simp_all [Inv, runItems]
  | finishTerm cur hd hp ht =>
    refine ⟨?_, ?_, ?_, ?_, ?_⟩ <;> simp_all [Inv, runItems]
  | consumeFutExec cur rem a b hd hp hf =>
    refine ⟨?_, ?_, ?_, ?_, ?_⟩ <;> simp_all [Inv]
  | pushFutExec cur rem fi rest hd hp hr hf =>
    refine ⟨?_, ?_, ?_, ?_, ?_⟩ <;> simp_all [Inv]

theorem Inv.reach {σ : Type} {v : σ} {s0 s : MState σ}
    (hr : Reach s0 s) (hi : Inv v s0) : Inv v s := by
  induction hr with
  | refl => exact hi
  | tail _ hst ih => exact Inv.step hst ih

/-- Every transition starts from a non-returned configuration: once
`mutex_task` returns, nothing further happens (its receivers and in-flight
set are dropped). -/
theorem Step.done_false {σ : Type} {s t : MState σ} (h : Step s t) :
    s.done = false := by
  cases h <;> assumption

theorem Reach.trans {σ : Type} {a b c : MState σ}
    (h1 : Reach a b) (h2 : Reach b c) : Reach a c := by
  induction h2 with
  | refl => exact h1
  | tail _ hst ih => exact Reach.tail ih hst

/-- A single transition never changes the first element of the enqueue
history: `enqueued` only ever grows by appending at the back. -/
theorem Step.enqueued_head {σ : Type} {s t : MState σ} (h : Step s t)
    (it : MutItem σ) (he : s.enqueued.head? = some it) :
    t.enqueued.head? = some it := by
  cases h with
  | enqueueMut x hd hc =>
    cases hq : s.enqueued with
    | nil => rw [hq] at he; cases he
    | cons a l => simp_all
  | enqueueFut fi hd hc => exact he
  | closeMut hd => exact he
  | closeFut hd => exact he
  | progressFut a b k hd hf => exact he
  | progressCur cur k hd hp => exact he
  | consumeFutAcq a b hd hp hf => exact he
  | takeMut x rest hd hp hr hq => exact he
  | returnClosed hd hp hr hc hq => exact he
  | pushFutAcq fi rest hd hp hr hq hc hf => exact he
  | finishCont cur hd hp ht => exact he
  | finishTerm cur hd hp ht => exact he
  | consumeFutExec cur rem a b hd hp hf => exact he
  | pushFutExec cur rem fi rest hd hp hr hf => exact he

theorem Reach.enqueued_head_persists {σ : Type} {s0 s : MState σ} (hr : Reach s0 s)
    (it : MutItem σ) (he : s0.enqueued.head? = some it) :
    s.enqueued.head? = some it := by
  induction hr with
  | refl => exact he
  | tail _ hst ih => exact hst.enqueued_head it ih

/-- One step of the drain argument behind claim C3: from an acquire-loop
configuration whose exclusive channel is closed and empty, the mailbox reaches
a returned configuration after consuming the completed in-flight futures. -/
theorem drain_to_done {σ : Type} :
    ∀ (n : Nat) (s : MState σ), s.futs.count 0 = n →
      s.done = false → s.phase = .acquiring → s.mutClosed = true →
      s.mutQ = [] → s.dropEvents = 0 →
      ∃ s', Reach s s' ∧ s'.done = true ∧ s'.dropEvents = 1
        ∧ s'.finishedL = s.finishedL ∧ s'.value = s.value := by
  intro n
  induction n with
  | zero =>
    intro s hn hd hp hc hq hdr
    have hmem : ¬ 0 ∈ s.futs := by
      simpa [List.count_eq_zero] using hn
    refine ⟨{ s with done := true, dropEvents := s.dropEvents + 1 }, ?_, ?_, ?_, ?_, ?_⟩
    · exact Reach.tail Reach.refl (Step.returnClosed s hd hp hmem hc hq)
    · rfl
    · simp [hdr]
    · rfl
    · rfl
  | succ n ih =>
    intro s hn hd hp hc hq hdr
    have hmem : 0 ∈ s.futs := by
      have : s.futs.count 0 ≠ 0 := by omega
      exact List.count_pos_iff.mp (Nat.pos_of_ne_zero this)
    obtain ⟨a, b, hab⟩ := List.append_of_mem hmem
    have hstep : Step s { s with futs := a ++ b } :=
      Step.consumeFutAcq s a b hd hp hab
    have hcount : (a ++ b).count 0 = n := by
      have := hn
      rw [hab] at this
      simp [List.count_append] at this ⊢
      omega
    obtain ⟨s', hr', hd', hdr', hf', hv'⟩ :=
      ih { s with futs := a ++ b } hcount hd hp hc hq hdr
    exact ⟨s', Reach.trans (Reach.tail Reach.refl hstep) hr', hd', hdr', hf', hv'⟩

/-! ## Claim theorems -/

/-- C4: polling a `Produces<T>` returns `Err(Canceled)` in the empty (`None`)
state, `Ok(v)` in the ready (`Value(v)`) state; a chain of deferred-of-deferred
of any depth is collapsed by the loop within the single poll call (the poll of
the chain literally equals the poll of its innermost cell); a broken channel
(sender dropped without sending) resolves to `Err(Canceled)`; a still-pending
receiver yields `Pending`. -/
theorem produces_poll_contract (α : Type) (v : α) (n : Nat) (p : Produces α) :
    Produces.poll (Produces.none : Produces α)
        = (PollOut.readyCanceled, Produces.none)
    ∧ Produces.poll (Produces.value v) = (PollOut.readyOk v, Produces.none)
    ∧ Produces.poll (Produces.chain n p) = Produces.poll p
    ∧ Produces.poll (Produces.deferredClosed : Produces α)
        = (PollOut.readyCanceled, Produces.none)
    ∧ Produces.poll (Produces.deferredPending : Produces α)
        = (PollOut.pending, Produces.deferredPending) :=
  ⟨rfl, rfl, Produces.poll_chain n p, rfl, rfl⟩

/-- C9: `Produces::poll` is total over all states and polling again after
resolution never panics: every poll either returns `Pending` and leaves a
pending receiver, or leaves the cell in the empty (`None`) variant — `poll`
begins with `mem::replace(&mut *self, Produces::None)` — so every subsequent
poll returns `Err(Canceled)`. -/
theorem poll_after_completion_canceled (α : Type) (p : Produces α) :
    (p.poll.1 = PollOut.pending ∧ p.poll.2 = Produces.deferredPending)
    ∨ (p.poll.2 = Produces.none
       ∧ Produces.poll p.poll.2 = (PollOut.readyCanceled, Produces.none)) := by
  rcases Produces.poll_residual p with ⟨h1, h2⟩ | ⟨h1, h2⟩
  · exact Or.inl ⟨h1, h2⟩
  · exact Or.inr ⟨h2, by rw [h2]; rfl⟩

/-- C5: on a detached handle (strong or weak), `send_mut` and `send_fut` are
silent no-ops — `send_unreachable` is never invoked, so nothing panics and no
error is surfaced — and `call_fut` returns a deferred result whose sender was
dropped unsent, which polls to `Err(Canceled)`; a weak handle whose target
allocation has been destroyed behaves identically. -/
theorem detached_and_dead_noop (α : Type) (w : World) (b : WeakAddr)
    (i : AllocId) (hb : b.inner = some i) (hdead : w.live i = false) :
    Addr.send_mut Addr.detached = SendResult.noop
    ∧ Addr.send_fut Addr.detached = SendResult.noop
    ∧ Addr.call_fut α Addr.detached = Produces.deferredClosed
    ∧ Produces.poll (Addr.call_fut α Addr.detached)
        = (PollOut.readyCanceled, Produces.none)
    ∧ WeakAddr.send_mut w WeakAddr.detached = SendResult.noop
    ∧ WeakAddr.send_fut w WeakAddr.detached = SendResult.noop
    ∧ WeakAddr.call_fut α w WeakAddr.detached = Produces.deferredClosed
    ∧ WeakAddr.send_mut w b = SendResult.noop
    ∧ WeakAddr.send_fut w b = SendResult.noop
    ∧ WeakAddr.call_fut α w b = Produces.deferredClosed
    ∧ Produces.poll (WeakAddr.call_fut α w b)
        = (PollOut.readyCanceled, Produces.none) := by
  refine ⟨rfl, rfl, rfl, rfl, rfl, rfl, rfl, ?_, ?_, ?_, ?_⟩
  all_goals
    simp [WeakAddr.send_mut, WeakAddr.send_fut, WeakAddr.call_fut,
      upgradeWeak, hb, hdead, Produces.poll]

/-- C5 witness: the detached handles and a weak handle to an allocation with
no remaining strong references, in a world where nothing is alive. -/
theorem detached_and_dead_noop_witness :
    Addr.send_mut Addr.detached = SendResult.noop
    ∧ Addr.send_fut Addr.detached = SendResult.noop
    ∧ Addr.call_fut Nat Addr.detached = Produces.deferredClosed
    ∧ Produces.poll (Addr.call_fut Nat Addr.detached)
        = (PollOut.readyCanceled, Produces.none)
    ∧ WeakAddr.send_mut deadWorld WeakAddr.detached = SendResult.noop
    ∧ WeakAddr.send_fut deadWorld WeakAddr.detached = SendResult.noop
    ∧ WeakAddr.call_fut Nat deadWorld WeakAddr.detached = Produces.deferredClosed
    ∧ WeakAddr.send_mut deadWorld c5Weak = SendResult.noop
    ∧ WeakAddr.send_fut deadWorld c5Weak = SendResult.noop
    ∧ WeakAddr.call_fut Nat deadWorld c5Weak = Produces.deferredClosed
    ∧ Produces.poll (WeakAddr.call_fut Nat deadWorld c5Weak)
        = (PollOut.readyCanceled, Produces.none) :=
  detached_and_dead_noop Nat deadWorld c5Weak 3 rfl rfl

/-- C7: while the actor is alive (the allocation still has strong
references), `strong.downgrade().upgrade()` returns the very same handle —
in particular one that compares equal by identity of the underlying
allocation; once the allocation is destroyed, `upgrade()` yields
`Addr::detached()`. -/
theorem downgrade_upgrade_roundtrip (w w2 : World) (a : Addr) (i : AllocId)
    (hi : a.inner = some i) :
    (w.live i = true →
      WeakAddr.upgrade w (Addr.downgrade a) = a
      ∧ Addr.eqAddr (WeakAddr.upgrade w (Addr.downgrade a)) a = true)
    ∧ (w2.live i = false →
      WeakAddr.upgrade w2 (Addr.downgrade a) = Addr.detached) := by
  obtain ⟨ai, am, af⟩ := a
  have hi' : ai = some i := hi
  subst hi'
  constructor
  · intro hl
    constructor
    · simp [WeakAddr.upgrade, Addr.downgrade, upgradeWeak, hl]
    · simp [Addr.eqAddr, Addr.ptr, WeakAddr.upgrade, Addr.downgrade,
        upgradeWeak, hl]
  · intro hdd
    simp [WeakAddr.upgrade, Addr.downgrade, upgradeWeak, hdd]

/-- C7 witness: a handle fresh from `Addr::new` on allocation 2, round-tripped
in a world where it is alive and in one where it has been destroyed. -/
theorem downgrade_upgrade_roundtrip_witness :
    (liveWorld.live 2 = true →
      WeakAddr.upgrade liveWorld (Addr.downgrade (Addr.mkNew 2 9)) = Addr.mkNew 2 9
      ∧ Addr.eqAddr (WeakAddr.upgrade liveWorld (Addr.downgrade (Addr.mkNew 2 9)))
          (Addr.mkNew 2 9) = true)
    ∧ (deadWorld.live 2 = false →
      WeakAddr.upgrade deadWorld (Addr.downgrade (Addr.mkNew 2 9)) = Addr.detached) :=
  downgrade_upgrade_roundtrip liveWorld deadWorld (Addr.mkNew 2 9) 2 rfl

/-- C8: `addr.upcast(view).downcast::<Concrete>()` returns `Ok` with exactly
the original handle (same allocation, original dispatch entries, hence equal
by identity) when the erased allocation's concrete type matches; returns
`Err` carrying the upcast handle unchanged on a type mismatch; and `downcast`
on a detached handle always returns `Ok` with a fresh detached handle. -/
theorem upcast_downcast_roundtrip (w : World) (i : AllocId) (t u c : Tag)
    (htag : w.typeOf i = t) :
    Addr.downcast w t (Addr.upcast t u (Addr.mkNew i t))
        = Except.ok (Addr.mkNew i t)
    ∧ Addr.eqAddr (Addr.upcast t u (Addr.mkNew i t)) (Addr.mkNew i t) = true
    ∧ (c ≠ t → Addr.downcast w c (Addr.upcast t u (Addr.mkNew i t))
        = Except.error (Addr.upcast t u (Addr.mkNew i t)))
    ∧ Addr.downcast w c (Addr.upcast t u Addr.detached) = Except.ok Addr.detached
    ∧ Addr.downcast w c Addr.detached = Except.ok Addr.detached := by
  refine ⟨?_, ?_, ?_, ?_, ?_⟩
  · simp [Addr.downcast, Addr.upcast, Addr.mkNew, htag]
  · simp [Addr.eqAddr, Addr.ptr, Addr.upcast, Addr.mkNew]
  · intro hne
    simp [Addr.downcast, Addr.upcast, Addr.mkNew, htag, Ne.symm hne]
  · simp [Addr.downcast, Addr.upcast, Addr.detached]
  · simp [Addr.downcast, Addr.detached]

/-- C8 witness: allocation 4 of concrete tag 9, upcast to view 11, downcast
back to 9 (match) and to 3 (mismatch); plus the detached cases. -/
theorem upcast_downcast_roundtrip_witness :
    Addr.downcast liveWorld 9 (Addr.upcast 9 11 (Addr.mkNew 4 9))
        = Except.ok (Addr.mkNew 4 9)
    ∧ Addr.eqAddr (Addr.upcast 9 11 (Addr.mkNew 4 9)) (Addr.mkNew 4 9) = true
    ∧ ((3 : Tag) ≠ 9 → Addr.downcast liveWorld 3 (Addr.upcast 9 11 (Addr.mkNew 4 9))
        = Except.error (Addr.upcast 9 11 (Addr.mkNew 4 9)))
    ∧ Addr.downcast liveWorld 3 (Addr.upcast 9 11 Addr.detached)
        = Except.ok Addr.detached
    ∧ Addr.downcast liveWorld 3 Addr.detached = Except.ok Addr.detached :=
  upcast_downcast_roundtrip liveWorld 4 9 11 3 rfl

/-- C10: the identity pointer of a detached handle (strong or weak) and of
every weak handle whose target has been destroyed is the same null sentinel,
so any two such handles — even weak handles that referred to two different
actors — compare equal, hash identically and order identically; a handle to a
live allocation never compares equal to a detached or dead one. -/
theorem dead_handles_share_identity (w : World) (a b : WeakAddr) (c : Addr)
    (i : AllocId) (ha : WeakAddr.ptr w a = Option.none)
    (hb : WeakAddr.ptr w b = Option.none) (hc : c.inner = some i) :
    Addr.ptr Addr.detached = Option.none
    ∧ WeakAddr.ptr w WeakAddr.detached = Option.none
    ∧ WeakAddr.eqWeak w a b = true
    ∧ WeakAddr.hashVal w a = WeakAddr.hashVal w b
    ∧ WeakAddr.cmp w a b = Ordering.eq
    ∧ Addr.eqWeak w c a = false
    ∧ Addr.eqAddr c Addr.detached = false := by
  refine ⟨rfl, rfl, ?_, ?_, ?_, ?_, ?_⟩
  · simp [WeakAddr.eqWeak, ha, hb]
  · simp [WeakAddr.hashVal, ha, hb]
  · rw [WeakAddr.cmp, ha, hb]; rfl
  · simp [Addr.eqWeak, Addr.ptr, ha, hc]
  · simp [Addr.eqAddr, Addr.ptr, Addr.detached, hc]

/-- C10 witness: two weak handles to the distinct destroyed allocations 1 and
2, and a live strong handle to allocation 0. -/
theorem dead_handles_share_identity_witness :
    Addr.ptr Addr.detached = Option.none
    ∧ WeakAddr.ptr deadWorld WeakAddr.detached = Option.none
    ∧ WeakAddr.eqWeak deadWorld c10WeakA c10WeakB = true
    ∧ WeakAddr.hashVal deadWorld c10WeakA = WeakAddr.hashVal deadWorld c10WeakB
    ∧ WeakAddr.cmp deadWorld c10WeakA c10WeakB = Ordering.eq
    ∧ Addr.eqWeak deadWorld (Addr.mkNew 0 9) c10WeakA = false
    ∧ Addr.eqAddr (Addr.mkNew 0 9) Addr.detached = false :=
  dead_handles_share_identity deadWorld c10WeakA c10WeakB (Addr.mkNew 0 9) 0
    rfl rfl rfl

/-- C1: in every reachable mailbox configuration, exclusive items have begun
executing in exactly the FIFO order of the exclusive channel
(`enqueued = startedL ++ mutQ`); strictly one at a time — in the acquire loop
every started item has finished, and in the execute loop the started items
are the finished ones plus the single current item, so the next item is never
started before the current item's future has resolved; and the actor state
equals the initial state with the finished items' mutations applied in
enqueue order: the observed mutation order equals enqueue order. -/
theorem exclusive_items_serialized (σ : Type) (v : σ) (s : MState σ)
    (hr : Reach (initState v) s) :
    s.enqueued = s.startedL ++ s.mutQ
    ∧ (match s.phase with
       | Phase.acquiring => s.startedL = s.finishedL
       | Phase.executing cur _ => s.startedL = s.finishedL ++ [cur])
    ∧ s.value = runItems v s.finishedL := by
  obtain ⟨h1, h2, h3, h4, h5⟩ := Inv.reach hr (Inv.init v)
  exact ⟨h1, h2, h3⟩

theorem c1Step1 : Step (initState 0) c1S1 :=
  Step.enqueueMut (initState 0) c1It rfl rfl

theorem c1Step2 : Step c1S1 c1S2 :=
  Step.takeMut c1S1 c1It [] rfl rfl (by simp [c1S1, initState]) rfl

theorem c1Step3 : Step c1S2 c1S3 :=
  Step.finishCont c1S2 c1It rfl rfl rfl

theorem c1Reach : Reach (initState 0) c1S3 :=
  Reach.tail (Reach.tail (Reach.tail Reach.refl c1Step1) c1Step2) c1Step3

/-- C1 witness: a counter actor that enqueued, started and finished one
exclusive item. -/
theorem exclusive_items_serialized_witness :
    c1S3.enqueued = c1S3.startedL ++ c1S3.mutQ
    ∧ (match c1S3.phase with
       | Phase.acquiring => c1S3.startedL = c1S3.finishedL
       | Phase.executing cur _ => c1S3.startedL = c1S3.finishedL ++ [cur])
    ∧ c1S3.value = runItems 0 c1S3.finishedL :=
  exclusive_items_serialized Nat 0 c1S3 c1Reach

/-- C2: when the current exclusive item's future resolves to `true`,
`mutex_task` takes the `return` transition into `termState`: the mailbox is
`done`, no transition leaves the resulting configuration, and every exclusive
item that was enqueued after the terminating one is still in `mutQ`
(`enqueued = finishedL ++ mutQ` with the terminating item last in
`finishedL`), hence never executed — even though it was already present in
the channel at the moment of termination; the queued and in-flight background
work present at that moment (`futQ`, `futs`) is likewise dropped without ever
running. -/
theorem terminate_short_circuit (σ : Type) (v : σ) (s : MState σ)
    (cur : MutItem σ) (hr : Reach (initState v) s)
    (hp : s.phase = Phase.executing cur 0) (ht : cur.term = true) :
    Step s (termState s cur)
    ∧ (termState s cur).done = true
    ∧ (∀ t, ¬ Step (termState s cur) t)
    ∧ (termState s cur).enqueued
        = (termState s cur).finishedL ++ (termState s cur).mutQ
    ∧ (termState s cur).startedL = (termState s cur).finishedL
    ∧ (termState s cur).futs = s.futs
    ∧ (termState s cur).futQ = s.futQ := by
  obtain ⟨h1, h2, h3, h4, h5⟩ := Inv.reach hr (Inv.init v)
  have hd : s.done = false := by
    cases hdc : s.done with
    | false => rfl
    | true => rw [h5 hdc] at hp; cases hp
  have h2' : s.startedL = s.finishedL ++ [cur] := by
    rw [hp] at h2; exact h2
  refine ⟨Step.finishTerm s cur hd hp ht, rfl, ?_, ?_, ?_, rfl, rfl⟩
  · intro t hstep
    have := Step.done_false hstep
    simp [termState] at this
  · show s.enqueued = (s.finishedL ++ [cur]) ++ s.mutQ
    rw [h1, h2']
  · show s.startedL = s.finishedL ++ [cur]
    exact h2'

theorem c2Step1 : Step (initState 5) c2S1 :=
  Step.enqueueMut (initState 5) c2It rfl rfl

theorem c2Step2 : Step c2S1 c2S2 :=
  Step.enqueueMut c2S1 c2It2 rfl rfl

theorem c2Step3 : Step c2S2 c2S3 :=
  Step.takeMut c2S2 c2It [c2It2] rfl rfl (by simp [c2S2, c2S1, initState]) rfl

theorem c2Reach : Reach (initState 5) c2S3 :=
  Reach.tail (Reach.tail (Reach.tail Reach.refl c2Step1) c2Step2) c2Step3

/-- C2 witness: an actor with a terminating item in flight and a second item,
enqueued later, still sitting in the exclusive channel. -/
theorem terminate_short_circuit_witness :
    Step c2S3 (termState c2S3 c2It)
    ∧ (termState c2S3 c2It).done = true
    ∧ (∀ t, ¬ Step (termState c2S3 c2It) t)
    ∧ (termState c2S3 c2It).enqueued
        = (termState c2S3 c2It).finishedL ++ (termState c2S3 c2It).mutQ
    ∧ (termState c2S3 c2It).startedL = (termState c2S3 c2It).finishedL
    ∧ (termState c2S3 c2It).futs = c2S3.futs
    ∧ (termState c2S3 c2It).futQ = c2S3.futQ :=
  terminate_short_circuit Nat 5 c2S3 c2It c2Reach rfl rfl

/-- C3: from any reachable acquire-loop configuration whose exclusive channel
is closed (all strong handles dropped) and already drained, with no item
having signalled "terminate" (the task has not returned yet), the mailbox
reaches a returned configuration by its own transitions alone: `mutex_task`
returns, dropping its locals exactly once (`dropEvents = 1` — the actor state
value, the background-future channel and the in-flight set), no transition
leaves the returned configuration (so unfinished background work is cancelled,
never run), no further exclusive item runs, and the state value is dropped
as-is; pending background futures alone do not keep the mailbox alive. -/
theorem shutdown_completeness (σ : Type) (v : σ) (s : MState σ)
    (hr : Reach (initState v) s) (hd : s.done = false)
    (hp : s.phase = Phase.acquiring) (hc : s.mutClosed = true)
    (hq : s.mutQ = []) :
    ∃ s', Reach s s' ∧ s'.done = true ∧ s'.dropEvents = 1
      ∧ (∀ t, ¬ Step s' t)
      ∧ s'.finishedL = s.finishedL ∧ s'.value = s.value := by
  obtain ⟨h1, h2, h3, h4, h5⟩ := Inv.reach hr (Inv.init v)
  have hdr : s.dropEvents = 0 := by rw [h4, hd]; rfl
  obtain ⟨s', hr', hd', hdrop', hf', hv'⟩ :=
    drain_to_done (s.futs.count 0) s rfl hd hp hc hq hdr
  refine ⟨s', hr', hd', hdrop', ?_, hf', hv'⟩
  intro t hstep
  have := Step.done_false hstep
  rw [hd'] at this
  cases this

theorem c3Step1 : Step (initState 7) c3S1 :=
  Step.enqueueFut (initState 7) 5 rfl rfl

theorem c3Step2 : Step c3S1 c3S2 :=
  Step.pushFutAcq c3S1 5 [] rfl rfl (by simp [c3S1, initState]) rfl rfl rfl

theorem c3Step3 : Step c3S2 c3S3 :=
  Step.closeMut c3S2 rfl

theorem c3Reach : Reach (initState 7) c3S3 :=
  Reach.tail (Reach.tail (Reach.tail Reach.refl c3Step1) c3Step2) c3Step3

/-- C3 witness: an actor whose exclusive channel is closed and drained while
a background future is still pending in the in-flight set. -/
theorem shutdown_completeness_witness :
    ∃ s', Reach c3S3 s' ∧ s'.done = true ∧ s'.dropEvents = 1
      ∧ (∀ t, ¬ Step s' t)
      ∧ s'.finishedL = c3S3.finishedL ∧ s'.value = c3S3.value :=
  shutdown_completeness Nat 7 c3S3 c3Reach rfl rfl rfl rfl

/-- C6: if the spawner rejects the mailbox task, `Addr::new` returns the
spawn error synchronously and no handle is created; if it succeeds, the
handle and a mailbox whose exclusive channel holds exactly the `started` call
are produced — `started` is enqueued before the handle is returned to the
caller, and this enqueue is a legal first transition from the fresh mailbox.
Consequently, in every configuration reachable from that construction-time
mailbox, the first element of the enqueue history is the `started` item, the
first exclusive item ever started is the `started` item (it runs before any
externally-submitted item), and if the environment never enqueues an item
equal to it again, it is started at most once. -/
theorem started_runs_first (σ : Type) (v : σ) (startedIt : MutItem σ)
    (i : AllocId) (t : Tag) (s : MState σ)
    (hr : Reach (startedMailbox v startedIt) s) :
    Addr.new σ false v startedIt i t = Except.error ⟨⟩
    ∧ Addr.new σ true v startedIt i t
        = Except.ok (Addr.mkNew i t, startedMailbox v startedIt)
    ∧ Step (initState v) (startedMailbox v startedIt)
    ∧ s.enqueued.head? = some startedIt
    ∧ (s.startedL = [] ∨ s.startedL.head? = some startedIt)
    ∧ (∀ l, s.enqueued = startedIt :: l → startedIt ∉ l →
        s.startedL = []
        ∨ ∃ l2, s.startedL = startedIt :: l2 ∧ startedIt ∉ l2) := by
  have hinv0 : Inv v (startedMailbox v startedIt) := by
    simp [Inv, startedMailbox, initState, runItems]
  obtain ⟨h1, h2, h3, h4, h5⟩ := Inv.reach hr hinv0
  have hhead : s.enqueued.head? = some startedIt :=
    Reach.enqueued_head_persists hr startedIt rfl
  refine ⟨by simp [Addr.new], by simp [Addr.new],
    Step.enqueueMut (initState v) startedIt rfl rfl, hhead, ?_, ?_⟩
  · cases hsl : s.startedL with
    | nil => exact Or.inl rfl
    | cons a l2 =>
      right
      rw [h1, hsl] at hhead
      simpa using hhead
  · intro l hl hnl
    cases hsl : s.startedL with
    | nil => exact Or.inl rfl
    | cons a l2 =>
      right
      rw [hsl] at h1
      rw [h1] at hl
      simp only [List.cons_append, List.cons.injEq] at hl
      obtain ⟨hae, hle⟩ := hl
      refine ⟨l2, by rw [hae], fun hm => hnl ?_⟩
      rw [← hle]
      exact List.mem_append_left _ hm

/-- C6 witness: a concrete actor construction, observed at the
construction-time mailbox itself. -/
theorem started_runs_first_witness :
    Addr.new Nat false 0 c6It 0 9 = Except.error ⟨⟩
    ∧ Addr.new Nat true 0 c6It 0 9
        = Except.ok (Addr.mkNew 0 9, startedMailbox 0 c6It)
    ∧ Step (initState 0) (startedMailbox 0 c6It)
    ∧ (startedMailbox 0 c6It).enqueued.head? = some c6It
    ∧ ((startedMailbox 0 c6It).startedL = []
       ∨ (startedMailbox 0 c6It).startedL.head? = some c6It)
    ∧ (∀ l, (startedMailbox 0 c6It).enqueued = c6It :: l → c6It ∉ l →
        (startedMailbox 0 c6It).startedL = []
        ∨ ∃ l2, (startedMailbox 0 c6It).startedL = c6It :: l2 ∧ c6It ∉ l2) :=
  started_runs_first Nat 0 c6It 0 9 (startedMailbox 0 c6It) Reach.refl

end ActZero
